import Mathlib

/-!
Verification of the planner core of the immigrally-api repository.

The development shallowly embeds the pure logic of the planner:
- `ScopeValidator` and `RequirementChecker` from `src/planner/planner_utils.py`,
- the strategy-ranking computation and the `roadmap` orchestration from
  `src/planner/planner_core.py`,
- the logic-tree requirement-id extraction from `src/planner/planner_neo4j.py`.

Python dictionaries are modelled as association lists (`List (String × String)`
or `List (String × Json)`) looked up with `List.lookup`; parsed JSON dictionaries
have unique keys, so first-match lookup coincides with Python dict lookup.
Python string truthiness (`if not s`) is modelled by testing for the empty
string, with `Option` covering `None` / absent keys.  Raised exceptions are
modelled with `Except String`, the carried string being the exception message.
The Neo4j store is an external collaborator; it is modelled as a record of pure
query functions (`Store`), each returning what the corresponding
`PlannerNeo4j` method returns.
-/

/-- Scope types that must match exactly (`ScopeValidator.REQUIRED_SCOPE_TYPES`
in `planner_utils.py`; a Python set, used only for membership). -/
def REQUIRED_SCOPE_TYPES : List String :=
  ["state", "nationality", "visa_type", "age",
   "credit_score", "asset_band", "previous_residence"]

/-- Optional scope types (`ScopeValidator.OPTIONAL_SCOPE_TYPES`). -/
def OPTIONAL_SCOPE_TYPES : List String := ["provider"]

/-- One claim-scope constraint dictionary as consumed by
`ScopeValidator.is_viable`: the `scope_type` and `value` entries, either of
which may be absent (`none`) or empty (falsy in Python). -/
structure ClaimScope where
  scope_type : Option String
  value : Option String
deriving DecidableEq

/-- The body of the per-constraint loop iteration of
`ScopeValidator.is_viable`: `true` means the constraint is satisfied or
skipped, `false` means the loop returns `False` at this constraint. -/
def scope_constraint_ok (user_scopes : List (String × String)) (cs : ClaimScope) : Bool :=
  match cs.scope_type, cs.value with
  | some st, some rv =>
    if st == "" || rv == "" then
      -- invalid scope data - skip
      true
    else if OPTIONAL_SCOPE_TYPES.contains st then
      -- provider scopes are optional (user choice)
      true
    else if REQUIRED_SCOPE_TYPES.contains st then
      match user_scopes.lookup st with
      | none => false
      | some uv => if uv == "" then false else uv == rv
    else true
  | _, _ =>
    -- missing scope_type or value - skip
    true

/-- `ScopeValidator.is_viable` (`planner_utils.py` lines 44-98): all scope
constraints must be satisfied; the empty list is trivially viable. -/
def ScopeValidator.is_viable (user_scopes : List (String × String))
    (claim_scopes : List ClaimScope) : Bool :=
  claim_scopes.all (scope_constraint_ok user_scopes)

/-- One record of the list produced by `ScopeValidator.get_missing_scopes`. -/
structure MissingScope where
  scope_type : String
  required_value : String
  user_value : String
deriving DecidableEq

/-- The body of the per-constraint loop iteration of
`ScopeValidator.get_missing_scopes`: `some` is the record appended for a
failing constraint, `none` means nothing is appended. -/
def missing_scope_entry (user_scopes : List (String × String)) (cs : ClaimScope) :
    Option MissingScope :=
  match cs.scope_type, cs.value with
  | some st, some rv =>
    if st == "" || rv == "" then none
    else if OPTIONAL_SCOPE_TYPES.contains st then none
    else if REQUIRED_SCOPE_TYPES.contains st then
      match user_scopes.lookup st with
      | none => some ⟨st, rv, "missing"⟩
      | some uv =>
        if uv == "" then some ⟨st, rv, "missing"⟩
        else if uv != rv then some ⟨st, rv, uv⟩
        else none
    else none
  | _, _ => none

/-- `ScopeValidator.get_missing_scopes` (`planner_utils.py` lines 100-138). -/
def ScopeValidator.get_missing_scopes (user_scopes : List (String × String))
    (claim_scopes : List ClaimScope) : List MissingScope :=
  claim_scopes.filterMap (missing_scope_entry user_scopes)

/-- One requirement dictionary as consumed by `RequirementChecker.is_viable`:
the `id` and `name` entries, either possibly absent. -/
structure Requirement where
  id : Option String
  name : Option String
deriving DecidableEq

/-- The message of the exception raised by `RequirementChecker.is_viable` for a
requirement that is not tracked in the user facts. -/
def not_tracked_message (req_name req_id : String) : String :=
  "Required capability '" ++ req_name ++ "' (" ++ req_id ++
    ") not tracked in user facts - system error"

/-- `RequirementChecker.is_viable` (`planner_utils.py` lines 159-202):
`.error` models the raised exception (the outer `except` of the Python code
re-raises it unchanged), `.ok b` the returned boolean. -/
def RequirementChecker.is_viable (user_facts : List (String × String)) :
    List Requirement → Except String Bool
  | [] => .ok true
  | r :: rest =>
    match r.id with
    | none => RequirementChecker.is_viable user_facts rest
    | some rid =>
      if rid == "" then RequirementChecker.is_viable user_facts rest
      else
        match user_facts.lookup rid with
        | none => .error (not_tracked_message ((r.name).getD rid) rid)
        | some st =>
          if st == "have" then RequirementChecker.is_viable user_facts rest
          else .ok false

/-- The strategy-ranking computation inlined in `PlannerCore.roadmap`
(`planner_core.py` lines 184-189): `ranking_rules.index(solution_id)` with the
`ValueError` fallback `len(ranking_rules)`. -/
def strategy_ranking_of (ranking_rules : List String) (solution_id : String) : Nat :=
  match ranking_rules.findIdx? (fun x => x == solution_id) with
  | some i => i
  | none => ranking_rules.length

/-- A goal record as returned by `PlannerNeo4j.get_goals_by_phase`. -/
structure Goal where
  id : String
  name : String
  phase : String
  description : String
deriving DecidableEq

/-- A solution record as returned by `PlannerNeo4j.get_solutions_for_goal`. -/
structure Solution where
  id : String
  name : String
  description : String
deriving DecidableEq

/-- A strategy record as returned by `PlannerNeo4j.get_strategy_for_goal`
(that method already replaces null fields by `[]` / `""` / `"medium"`). -/
structure Strategy where
  ranking_rules : List String
  user_rationale : String
  internal_rationale : String
  confidence : String
deriving DecidableEq

/-- The part of a graphlet bundle returned by
`PlannerNeo4j.get_complete_graphlet` that `PlannerCore.roadmap` reads:
`graphlet.get('scopes', [])` and `graphlet.get('requirements', [])`.  The
remaining entries (assessed_claim, clauses, qualifiers) are carried through
untouched by the orchestrator and only ever counted, so they are not
modelled field by field. -/
structure Graphlet where
  scopes : List ClaimScope
  requirements : List Requirement
deriving DecidableEq

/-- The Neo4j store as seen by `PlannerCore.roadmap`: one pure query function
per `PlannerNeo4j` read method (the store itself is an external collaborator). -/
structure Store where
  goals : List Goal
  solutionsFor : String → List Solution
  claimsFor : String → List String
  graphletFor : String → Option Graphlet
  strategyFor : String → Option Strategy

/-- The slice of `UserState` that `PlannerCore.roadmap` consumes:
`user_state.user_id`, `user_state.scopes` and `user_state.facts`. -/
structure UserState where
  user_id : String
  scopes : List (String × String)
  facts : List (String × String)

/-- The `SolutionData` dataclass of `planner_core.py`. -/
structure SolutionData where
  solution_id : String
  solution_name : String
  solution_description : String
  viable_assessed_claims : List Graphlet
  strategy_ranking : Nat
  user_rationale : String
deriving DecidableEq

/-- The `GoalData` dataclass of `planner_core.py`. -/
structure GoalData where
  goal_id : String
  goal_name : String
  goal_phase : String
  goal_description : String
  viable_solutions : List SolutionData
deriving DecidableEq

/-- A solution dictionary of the final roadmap payload. -/
structure SolutionDict where
  solution_id : String
  solution_name : String
  solution_description : String
  strategy_ranking : Nat
  user_rationale : String
  assessed_claims_count : Nat
deriving DecidableEq

/-- A goal dictionary of the final roadmap payload. -/
structure GoalDict where
  goal_id : String
  goal_name : String
  goal_phase : String
  goal_description : String
  solutions : List SolutionDict
deriving DecidableEq

/-- The final roadmap payload of `PlannerCore.roadmap`. -/
structure RoadmapData where
  user_id : String
  generated_at : String
  total_goals : Nat
  goals : List GoalDict
deriving DecidableEq

/-- `PlannerNeo4j.get_goals_by_phase` called with `phase = None` as `roadmap`
does: raises (wrapped in the method's own `except` clause) when the goal list
is empty, otherwise returns all goals in store order. -/
def get_goals_by_phase (store : Store) : Except String (List Goal) :=
  if store.goals.isEmpty then
    .error "Failed to get goals by phase: No goals found in database - check goal seeding"
  else .ok store.goals

/-- The per-solution AssessedClaim loop of `PlannerCore.roadmap` (lines
142-166): walks the claim ids in order, skips claims without graphlet data,
skips claims failing the scope gate or the requirement gate, collects the
graphlets of viable claims, and propagates any exception the requirement
check raises. -/
def viable_claims_for (store : Store) (us : UserState) :
    List String → Except String (List Graphlet)
  | [] => .ok []
  | cid :: rest =>
    match store.graphletFor cid with
    | none => viable_claims_for store us rest
    | some g =>
      if ScopeValidator.is_viable us.scopes g.scopes then
        match RequirementChecker.is_viable us.facts g.requirements with
        | .error e => .error e
        | .ok true => do
            let vs ← viable_claims_for store us rest
            .ok (g :: vs)
        | .ok false => viable_claims_for store us rest
      else viable_claims_for store us rest

/-- The default rationale used by `roadmap` when no strategy exists for a goal. -/
def default_ranking_notice : String :=
  "Strategy data not available - using default ranking"

/-- The per-solution body of `PlannerCore.roadmap` (lines 127-202): `.ok none`
models `continue` (solution pruned), `.ok (some sd)` a viable solution
appended to `viable_solutions`, `.error` a propagated exception. -/
def process_solution (store : Store) (us : UserState) (goal_id : String)
    (sol : Solution) : Except String (Option SolutionData) :=
  let assessed_claims := store.claimsFor sol.id
  if assessed_claims.isEmpty then .ok none
  else do
    let vc ← viable_claims_for store us assessed_claims
    if vc.isEmpty then .ok none
    else
      let ranking_rules :=
        match store.strategyFor goal_id with
        | none => []
        | some sd => sd.ranking_rules
      let user_rationale :=
        match store.strategyFor goal_id with
        | none => default_ranking_notice
        | some sd => sd.user_rationale
      .ok (some ⟨sol.id, sol.name, sol.description, vc,
                 strategy_ranking_of ranking_rules sol.id, user_rationale⟩)

/-- The solution loop of `PlannerCore.roadmap`: processes solutions in store
order, keeping the viable ones and propagating the first exception. -/
def process_solutions (store : Store) (us : UserState) (goal_id : String) :
    List Solution → Except String (List SolutionData)
  | [] => .ok []
  | sol :: rest => do
    let r ← process_solution store us goal_id sol
    let rs ← process_solutions store us goal_id rest
    match r with
    | none => .ok rs
    | some sd => .ok (sd :: rs)

/-- Stable insertion of a solution into a rank-sorted list; together with
`sort_by_rank` this models `viable_solutions.sort(key=lambda s:
s.strategy_ranking)` (Python's stable ascending sort). -/
def insert_by_rank (sd : SolutionData) : List SolutionData → List SolutionData
  | [] => [sd]
  | x :: xs =>
    if sd.strategy_ranking ≤ x.strategy_ranking then sd :: x :: xs
    else x :: insert_by_rank sd xs

/-- Stable ascending sort by `strategy_ranking`, modelling Python list.sort. -/
def sort_by_rank : List SolutionData → List SolutionData
  | [] => []
  | x :: xs => insert_by_rank x (sort_by_rank xs)

/-- The per-goal body of `PlannerCore.roadmap` (lines 108-222): `.ok none`
models a pruned goal (`continue`), `.ok (some gd)` a goal appended to
`viable_goals` with its viable solutions sorted by strategy ranking. -/
def process_goal (store : Store) (us : UserState) (goal : Goal) :
    Except String (Option GoalData) :=
  let sols := store.solutionsFor goal.id
  if sols.isEmpty then .ok none
  else do
    let vs ← process_solutions store us goal.id sols
    if vs.isEmpty then .ok none
    else .ok (some ⟨goal.id, goal.name, goal.phase, goal.description, sort_by_rank vs⟩)

/-- The goal loop of `PlannerCore.roadmap`. -/
def process_goals (store : Store) (us : UserState) :
    List Goal → Except String (List GoalData)
  | [] => .ok []
  | g :: rest => do
    let r ← process_goal store us g
    let rs ← process_goals store us rest
    match r with
    | none => .ok rs
    | some gd => .ok (gd :: rs)

/-- Serialization of one `SolutionData` into the payload dictionary
(`planner_core.py` lines 244-255). -/
def solution_to_dict (sd : SolutionData) : SolutionDict :=
  ⟨sd.solution_id, sd.solution_name, sd.solution_description,
   sd.strategy_ranking, sd.user_rationale, sd.viable_assessed_claims.length⟩

/-- Serialization of one `GoalData` into the payload dictionary
(`planner_core.py` lines 235-257). -/
def goal_to_dict (gd : GoalData) : GoalDict :=
  ⟨gd.goal_id, gd.goal_name, gd.goal_phase, gd.goal_description,
   gd.viable_solutions.map solution_to_dict⟩

/-- The body of the `try` block of `PlannerCore.roadmap` (lines 92-259). -/
def roadmap_inner (store : Store) (us : UserState) : Except String RoadmapData := do
  let all_goals ← get_goals_by_phase store
  if all_goals.isEmpty then
    .error "No goals found in database - system not properly initialized"
  else do
    let viable_goals ← process_goals store us all_goals
    .ok ⟨us.user_id, "2025-09-09T16:27:00Z", viable_goals.length,
         viable_goals.map goal_to_dict⟩

/-- `PlannerCore.roadmap` (lines 72-263): any exception escaping the `try`
block is re-raised wrapped as "Roadmap generation failed: ...". -/
def roadmap (store : Store) (us : UserState) : Except String RoadmapData :=
  match roadmap_inner store us with
  | .error e => .error ("Roadmap generation failed: " ++ e)
  | .ok r => .ok r

/-- Parsed JSON values, the domain over which
`PlannerNeo4j._extract_requirement_ids_from_logic_tree` recurses after
`json.loads`. -/
inductive Json where
  | null : Json
  | bool (b : Bool) : Json
  | num (n : Int) : Json
  | str (s : String) : Json
  | arr (items : List Json) : Json
  | obj (fields : List (String × Json)) : Json

/-- The test `node.get("op") == "has"` of `extract_ids_recursive` in
`planner_neo4j.py`. -/
def is_has_op (fields : List (String × Json)) : Bool :=
  match fields.lookup "op" with
  | some (Json.str s) => s == "has"
  | _ => false

mutual
/-- The recursive body `extract_ids_recursive` of
`PlannerNeo4j._extract_requirement_ids_from_logic_tree` (lines 325-338): a
dict node appends `node["id"]` when it is a `has` node carrying an `id` key,
then recurses into `node["children"]` when that key holds a list; a list node
recurses into every item; every other value contributes nothing.
`extract_children` walks the field list up to the first `children` key,
which is exactly the dict lookup of `children` (parsed dicts have unique
keys). -/
def extract_ids_recursive : Json → List Json
  | .obj fields =>
      (if is_has_op fields then
         match fields.lookup "id" with
         | some idv => [idv]
         | none => []
       else []) ++ extract_children fields
  | .arr items => extract_ids_list items
  | _ => []

/-- Recursion into the value of the first `children` key, when it is a list. -/
def extract_children : List (String × Json) → List Json
  | [] => []
  | (k, v) :: rest =>
      if k == "children" then
        match v with
        | .arr cs => extract_ids_list cs
        | _ => []
      else extract_children rest

/-- Extraction mapped over the items of a list node. -/
def extract_ids_list : List Json → List Json
  | [] => []
  | x :: xs => extract_ids_recursive x ++ extract_ids_list xs
end

/-- `PlannerNeo4j._extract_requirement_ids_from_logic_tree` (lines 301-345):
`none` models a falsy input (`None`, empty string) as well as a string on
which `json.loads` raises, both of which yield the empty list; `some t`
models an input that parses to the JSON value `t`. -/
def extractRequirementIds : Option Json → List Json
  | none => []
  | some t => extract_ids_recursive t

mutual
/-- A logic tree is well-formed when every `has` node anywhere in it that
carries an `id` key carries a string id, as the documented logic-tree format
prescribes (`"id": "req_abc123"`). -/
def wf_leaf_ids : Json → Bool
  | .obj fields =>
      (if is_has_op fields then
         match fields.lookup "id" with
         | some (Json.str _) => true
         | some _ => false
         | none => true
       else true) && wf_leaf_ids_fields fields
  | .arr items => wf_leaf_ids_list items
  | _ => true

/-- Well-formedness of every value of a field list. -/
def wf_leaf_ids_fields : List (String × Json) → Bool
  | [] => true
  | (_, v) :: rest => wf_leaf_ids v && wf_leaf_ids_fields rest

/-- Well-formedness of every item of a list. -/
def wf_leaf_ids_list : List Json → Bool
  | [] => true
  | x :: xs => wf_leaf_ids x && wf_leaf_ids_list xs
end

mutual
/-- Two JSON values are related when one arises from the other by permuting
the list under a `children` key of any node, recursively; object keys and
their order are untouched, so dict lookups stay aligned. -/
inductive JPerm : Json → Json → Prop where
  | null : JPerm .null .null
  | bool (b : Bool) : JPerm (.bool b) (.bool b)
  | num (n : Int) : JPerm (.num n) (.num n)
  | str (s : String) : JPerm (.str s) (.str s)
  | arr {xs ys : List Json} : JPermList xs ys → JPerm (.arr xs) (.arr ys)
  | obj {fs gs : List (String × Json)} : JPermFields fs gs → JPerm (.obj fs) (.obj gs)

/-- Pointwise `JPerm` on lists (no reordering at this level). -/
inductive JPermList : List Json → List Json → Prop where
  | nil : JPermList [] []
  | cons {x y : Json} {xs ys : List Json} :
      JPerm x y → JPermList xs ys → JPermList (x :: xs) (y :: ys)

/-- Pointwise `JPerm` on field lists, except that the list under a
`children` key may additionally be reordered. -/
inductive JPermFields : List (String × Json) → List (String × Json) → Prop where
  | nil : JPermFields [] []
  | cons {k : String} {v w : Json} {fs gs : List (String × Json)} :
      JPerm v w → JPermFields fs gs → JPermFields ((k, v) :: fs) ((k, w) :: gs)
  | consChildren {v w z : List Json} {fs gs : List (String × Json)} :
      JPermList v z → List.Perm z w → JPermFields fs gs →
      JPermFields (("children", Json.arr v) :: fs) (("children", Json.arr w) :: gs)
end

/-- The relation holding between the values found under one key of two
`JPermFields`-related field lists: either plainly `JPerm`-related, or (for the
`children` key) a recursively related then reordered array. -/
def JPermVal (v w : Json) : Prop :=
  JPerm v w ∨ ∃ xs ys z, v = Json.arr xs ∧ w = Json.arr ys ∧
    JPermList xs z ∧ List.Perm z ys

/-- The logic tree of the spec example,
`{AND: [{has: A}, {OR: [{has: B}, {has: C}]}]}`, in the serialized format
the repository documents (`{"op": ..., "children": [...]}` internal nodes and
`{"op": "has", "id": ...}` leaves). -/
def exampleLogicTree : Json :=
  Json.obj [("op", Json.str "AND"), ("children", Json.arr
    [Json.obj [("op", Json.str "has"), ("id", Json.str "A")],
     Json.obj [("op", Json.str "OR"), ("children", Json.arr
        [Json.obj [("op", Json.str "has"), ("id", Json.str "B")],
         Json.obj [("op", Json.str "has"), ("id", Json.str "C")]])]])]

/-- The same logic tree with the two top-level children swapped. -/
def exampleLogicTree2 : Json :=
  Json.obj [("op", Json.str "AND"), ("children", Json.arr
    [Json.obj [("op", Json.str "OR"), ("children", Json.arr
        [Json.obj [("op", Json.str "has"), ("id", Json.str "B")],
         Json.obj [("op", Json.str "has"), ("id", Json.str "C")]])],
     Json.obj [("op", Json.str "has"), ("id", Json.str "A")]])]

/-- A one-goal, one-solution, one-claim demo catalog used to exercise the
pipeline on concrete data. -/
def demoGoal : Goal := ⟨"g1", "Goal One", "BUILD", "first goal"⟩

/-- The demo catalog's single solution. -/
def demoSolution : Solution := ⟨"s1", "Solution One", "sol desc"⟩

/-- The demo claim's graphlet: no scope constraints, one requirement. -/
def demoGraphlet : Graphlet := ⟨[], [⟨some "r1", some "Req One"⟩]⟩

/-- A demo store: one goal fulfilled by one solution targeted by one claim,
and no strategy for any goal. -/
def demoStore : Store where
  goals := [demoGoal]
  solutionsFor := fun gid => if gid == "g1" then [demoSolution] else []
  claimsFor := fun sid => if sid == "s1" then ["c1"] else []
  graphletFor := fun cid => if cid == "c1" then some demoGraphlet else none
  strategyFor := fun _ => none

/-- A store with an empty catalog. -/
def emptyStore : Store :=
  ⟨[], fun _ => [], fun _ => [], fun _ => none, fun _ => none⟩

/-- A demo user tracking the demo requirement as "have". -/
def demoUser : UserState := ⟨"u1", [("state", "CA")], [("r1", "have")]⟩

/-- A demo user tracking nothing, so the demo requirement is untracked. -/
def demoUserBad : UserState := ⟨"u2", [], []⟩

/-- The solution record the pipeline produces for the demo solution. -/
def demoSolutionData : SolutionData :=
  ⟨"s1", "Solution One", "sol desc", [demoGraphlet], 0, default_ranking_notice⟩

/-- The payload dictionary of the demo solution. -/
def demoSolutionDict : SolutionDict :=
  ⟨"s1", "Solution One", "sol desc", 0, default_ranking_notice, 1⟩

/-- The payload dictionary of the demo goal. -/
def demoGoalDict : GoalDict :=
  ⟨"g1", "Goal One", "BUILD", "first goal", [demoSolutionDict]⟩

/-- The roadmap payload computed for the demo store and demo user. -/
def demoRoadmap : RoadmapData :=
  ⟨"u1", "2025-09-09T16:27:00Z", 1, [demoGoalDict]⟩

theorem scope_constraint_ok_iff (us : List (String × String)) (c : ClaimScope) :
    scope_constraint_ok us c = true ↔
      (∀ st v, c.scope_type = some st → c.value = some v →
        st ≠ "" → v ≠ "" → st ∈ REQUIRED_SCOPE_TYPES →
        ∃ uv, us.lookup st = some uv ∧ uv ≠ "" ∧ uv = v) := by
  obtain ⟨sto, vo⟩ := c
  cases sto with
  | none => simp [scope_constraint_ok]
  | some st =>
    cases vo with
    | none => simp [scope_constraint_ok]
    | some v =>
      simp only [scope_constraint_ok, Option.some.injEq]
      by_cases hst : st = ""
      · subst hst; simp
      by_cases hv : v = ""
      · subst hv; simp [hst]
      by_cases hopt : st ∈ OPTIONAL_SCOPE_TYPES
      · have hprov : st = "provider" := by
          simpa [OPTIONAL_SCOPE_TYPES] using hopt
        subst hprov
        have : "provider" ∉ REQUIRED_SCOPE_TYPES := by decide
        simp [hst, hv, hopt, this]
      by_cases hreq : st ∈ REQUIRED_SCOPE_TYPES
      · cases h : us.lookup st with
        | none => simp [hst, hv, hopt, hreq, h]
        | some uv =>
          by_cases huv : uv = ""
          · subst huv; simp [hst, hv, hopt, hreq, h]
            exact fun hb => hv hb.symm
          · simp [hst, hv, hopt, hreq, h, huv]
      · simp [hst, hv, hopt, hreq]

theorem missing_scope_entry_eq_none_iff (us : List (String × String)) (c : ClaimScope) :
    missing_scope_entry us c = none ↔ scope_constraint_ok us c = true := by
  obtain ⟨sto, vo⟩ := c
  cases sto with
  | none => simp [missing_scope_entry, scope_constraint_ok]
  | some st =>
    cases vo with
    | none => simp [missing_scope_entry, scope_constraint_ok]
    | some v =>
      simp only [missing_scope_entry, scope_constraint_ok]
      by_cases hst : st = ""
      · subst hst; simp
      by_cases hv : v = ""
      · subst hv; simp [hst]
      by_cases hopt : st ∈ OPTIONAL_SCOPE_TYPES
      · simp [hst, hv, hopt]
      by_cases hreq : st ∈ REQUIRED_SCOPE_TYPES
      · cases h : us.lookup st with
        | none => simp [hst, hv, hopt, hreq, h]
        | some uv =>
          by_cases huv : uv = ""
          · subst huv; simp [hst, hv, hopt, hreq, h]
          · by_cases huvv : uv = v
            · simp [hst, hv, hopt, hreq, h, huv, huvv]
            · simp [hst, hv, hopt, hreq, h, huv, huvv]
      · simp [hst, hv, hopt, hreq]

/-- C2: `ScopeValidator.is_viable(US, CS)` is true iff every constraint in CS
whose scope_type is one of the 7 required dimensions and whose scope_type and
value are both present and non-empty is matched by US exactly (US has a
non-empty value for that dimension equal to the constraint's value); the
empty constraint list yields true, provider constraints are always satisfied,
and constraints missing their scope_type or value are skipped. -/
theorem claim_C2 (us : List (String × String)) (cs : List ClaimScope) :
    (ScopeValidator.is_viable us cs = true ↔
      ∀ c ∈ cs, ∀ st v, c.scope_type = some st → c.value = some v →
        st ≠ "" → v ≠ "" → st ∈ REQUIRED_SCOPE_TYPES →
        ∃ uv, us.lookup st = some uv ∧ uv ≠ "" ∧ uv = v)
    ∧ ScopeValidator.is_viable us [] = true
    ∧ (∀ v, scope_constraint_ok us ⟨some "provider", some v⟩ = true)
    ∧ (∀ ov, scope_constraint_ok us ⟨none, ov⟩ = true)
    ∧ (∀ os, scope_constraint_ok us ⟨os, none⟩ = true) := by
  refine ⟨?_, rfl, ?_, ?_, ?_⟩
  · simp only [ScopeValidator.is_viable, List.all_eq_true]
    constructor
    · intro h c hc
      exact (scope_constraint_ok_iff us c).mp (h c hc)
    · intro h c hc
      exact (scope_constraint_ok_iff us c).mpr (h c hc)
  · intro v
    by_cases hv : v = ""
    · subst hv; simp [scope_constraint_ok]
    · simp [scope_constraint_ok, hv, OPTIONAL_SCOPE_TYPES]
  · intro ov; rfl
  · intro os; cases os <;> rfl

/-- C9: the scope gate and its diagnostic companion agree —
`ScopeValidator.is_viable` returns true exactly when
`ScopeValidator.get_missing_scopes` returns the empty list. -/
theorem claim_C9 (us : List (String × String)) (cs : List ClaimScope) :
    ScopeValidator.is_viable us cs = true ↔
      ScopeValidator.get_missing_scopes us cs = [] := by
  simp only [ScopeValidator.is_viable, ScopeValidator.get_missing_scopes,
    List.all_eq_true, List.filterMap_eq_nil_iff]
  constructor
  · intro h c hc
    exact (missing_scope_entry_eq_none_iff us c).mpr (h c hc)
  · intro h c hc
    exact (missing_scope_entry_eq_none_iff us c).mp (h c hc)

theorem req_is_viable_all_have (uf : List (String × String)) :
    ∀ reqs : List Requirement,
      (∀ r ∈ reqs, ∀ rid, r.id = some rid → rid ≠ "" → uf.lookup rid = some "have") →
      RequirementChecker.is_viable uf reqs = .ok true := by
  intro reqs
  induction reqs with
  | nil => intro _; rfl
  | cons r rest ih =>
    intro h
    have hrest := fun r' hr' => h r' (List.mem_cons_of_mem _ hr')
    cases hr : r.id with
    | none => simpa [RequirementChecker.is_viable, hr] using ih hrest
    | some rid =>
      by_cases hempty : rid = ""
      · subst hempty
        simpa [RequirementChecker.is_viable, hr] using ih hrest
      · have hhave := h r (List.mem_cons_self r rest) rid hr hempty
        simpa [RequirementChecker.is_viable, hr, hempty, hhave] using ih hrest

theorem req_is_viable_some_bad (uf : List (String × String)) :
    ∀ reqs : List Requirement,
      (∀ r ∈ reqs, ∀ rid, r.id = some rid → rid ≠ "" → ∃ st, uf.lookup rid = some st) →
      (∃ r ∈ reqs, ∃ rid st, r.id = some rid ∧ rid ≠ "" ∧ uf.lookup rid = some st ∧
        (st = "need" ∨ st = "blocked")) →
      RequirementChecker.is_viable uf reqs = .ok false := by
  intro reqs
  induction reqs with
  | nil => rintro _ ⟨r, hr, _⟩; exact absurd hr (List.not_mem_nil r)
  | cons r rest ih =>
    rintro htracked ⟨rb, hrb, rid, st, hid, hne, hst, hbad⟩
    have htrest := fun r' hr' => htracked r' (List.mem_cons_of_mem _ hr')
    cases hr : r.id with
    | none =>
      have hrbrest : rb ∈ rest := by
        rcases List.mem_cons.mp hrb with heq | hmem
        · subst heq; rw [hr] at hid; exact absurd hid (by simp)
        · exact hmem
      simpa [RequirementChecker.is_viable, hr] using
        ih htrest ⟨rb, hrbrest, rid, st, hid, hne, hst, hbad⟩
    | some rid0 =>
      by_cases hempty : rid0 = ""
      · subst hempty
        have hrbrest : rb ∈ rest := by
          rcases List.mem_cons.mp hrb with heq | hmem
          · subst heq; rw [hr] at hid
            exact absurd (by simpa using hid.symm) hne
          · exact hmem
        simpa [RequirementChecker.is_viable, hr] using
          ih htrest ⟨rb, hrbrest, rid, st, hid, hne, hst, hbad⟩
      · obtain ⟨st0, hst0⟩ :=
          htracked r (List.mem_cons_self r rest) rid0 hr hempty
        by_cases hhave : st0 = "have"
        · subst hhave
          have hrbrest : rb ∈ rest := by
            rcases List.mem_cons.mp hrb with heq | hmem
            · subst heq
              rw [hr] at hid
              obtain rfl : rid0 = rid := by simpa using hid
              rw [hst0] at hst
              obtain rfl : "have" = st := by simpa using hst
              rcases hbad with h | h <;> exact absurd h.symm (by decide)
            · exact hmem
          simpa [RequirementChecker.is_viable, hr, hempty, hst0] using
            ih htrest ⟨rb, hrbrest, rid, st, hid, hne, hst, hbad⟩
        · simp [RequirementChecker.is_viable, hr, hempty, hst0, hhave]

theorem req_is_viable_untracked (uf : List (String × String)) :
    ∀ reqs : List Requirement,
      (∀ r ∈ reqs, ∀ rid, r.id = some rid → rid ≠ "" →
        ∀ st, uf.lookup rid = some st → st = "have") →
      (∃ r ∈ reqs, ∃ rid, r.id = some rid ∧ rid ≠ "" ∧ uf.lookup rid = none) →
      ∃ r ∈ reqs, ∃ rid, r.id = some rid ∧ rid ≠ "" ∧ uf.lookup rid = none ∧
        RequirementChecker.is_viable uf reqs =
          .error (not_tracked_message ((r.name).getD rid) rid) := by
  intro reqs
  induction reqs with
  | nil => rintro _ ⟨r, hr, _⟩; exact absurd hr (List.not_mem_nil r)
  | cons r rest ih =>
    rintro hhave ⟨rb, hrb, rid, hid, hne, hnone⟩
    have hhrest := fun r' hr' => hhave r' (List.mem_cons_of_mem _ hr')
    cases hr : r.id with
    | none =>
      have hrbrest : rb ∈ rest := by
        rcases List.mem_cons.mp hrb with heq | hmem
        · subst heq; rw [hr] at hid; exact absurd hid (by simp)
        · exact hmem
      obtain ⟨r', hr', rid', h1, h2, h3, h4⟩ :=
        ih hhrest ⟨rb, hrbrest, rid, hid, hne, hnone⟩
      exact ⟨r', List.mem_cons_of_mem _ hr', rid', h1, h2, h3, by
        simpa [RequirementChecker.is_viable, hr] using h4⟩
    | some rid0 =>
      by_cases hempty : rid0 = ""
      · subst hempty
        have hrbrest : rb ∈ rest := by
          rcases List.mem_cons.mp hrb with heq | hmem
          · subst heq; rw [hr] at hid
            exact absurd (by simpa using hid.symm) hne
          · exact hmem
        obtain ⟨r', hr', rid', h1, h2, h3, h4⟩ :=
          ih hhrest ⟨rb, hrbrest, rid, hid, hne, hnone⟩
        exact ⟨r', List.mem_cons_of_mem _ hr', rid', h1, h2, h3, by
          simpa [RequirementChecker.is_viable, hr] using h4⟩
      · cases hlook : uf.lookup rid0 with
        | none =>
          refine ⟨r, List.mem_cons_self r rest, rid0, hr, hempty, hlook, ?_⟩
          simp [RequirementChecker.is_viable, hr, hempty, hlook]
        | some st0 =>
          have := hhave r (List.mem_cons_self r rest) rid0 hr hempty st0 hlook
          subst this
          have hrbrest : rb ∈ rest := by
            rcases List.mem_cons.mp hrb with heq | hmem
            · subst heq
              rw [hr] at hid
              obtain rfl : rid0 = rid := by simpa using hid
              rw [hlook] at hnone
              exact absurd hnone (by simp)
            · exact hmem
          obtain ⟨r', hr', rid', h1, h2, h3, h4⟩ :=
            ih hhrest ⟨rb, hrbrest, rid, hid, hne, hnone⟩
          exact ⟨r', List.mem_cons_of_mem _ hr', rid', h1, h2, h3, by
            simpa [RequirementChecker.is_viable, hr, hempty, hlook] using h4⟩

/-- C1: for every user-facts map and requirement list, the requirement gate
returns true when every requirement id maps to "have"; returns false when all
ids are tracked and some id maps to "need" or "blocked"; raises the
"not tracked in user facts" data-integrity failure (rather than defaulting)
when some id is absent from the user facts and the tracked ones are all
"have"; and the empty requirement list yields true. -/
theorem claim_C1 (uf : List (String × String)) (reqs : List Requirement) :
    ((∀ r ∈ reqs, ∀ rid, r.id = some rid → rid ≠ "" → uf.lookup rid = some "have") →
      RequirementChecker.is_viable uf reqs = .ok true)
    ∧ ((∀ r ∈ reqs, ∀ rid, r.id = some rid → rid ≠ "" → ∃ st, uf.lookup rid = some st) →
       (∃ r ∈ reqs, ∃ rid st, r.id = some rid ∧ rid ≠ "" ∧ uf.lookup rid = some st ∧
          (st = "need" ∨ st = "blocked")) →
       RequirementChecker.is_viable uf reqs = .ok false)
    ∧ ((∀ r ∈ reqs, ∀ rid, r.id = some rid → rid ≠ "" →
          ∀ st, uf.lookup rid = some st → st = "have") →
       (∃ r ∈ reqs, ∃ rid, r.id = some rid ∧ rid ≠ "" ∧ uf.lookup rid = none) →
       ∃ r ∈ reqs, ∃ rid, r.id = some rid ∧ rid ≠ "" ∧ uf.lookup rid = none ∧
         RequirementChecker.is_viable uf reqs =
           .error (not_tracked_message ((r.name).getD rid) rid))
    ∧ RequirementChecker.is_viable uf [] = .ok true :=
  ⟨req_is_viable_all_have uf reqs,
   fun h1 h2 => req_is_viable_some_bad uf reqs h1 h2,
   fun h1 h2 => req_is_viable_untracked uf reqs h1 h2,
   rfl⟩

theorem strategy_ranking_of_cons (a : String) (R : List String) (s : String) :
    strategy_ranking_of (a :: R) s =
      if a = s then 0 else strategy_ranking_of R s + 1 := by
  simp only [strategy_ranking_of, List.findIdx?_cons]
  by_cases h : a = s
  · simp [h]
  · cases hf : R.findIdx? (fun x => x == s) with
    | none => simp [h, hf, List.length_cons]
    | some i => simp [h, hf]

/-- C3: the solution's rank is the index of the first occurrence of its id in
the strategy's ranking list (0 = best) when present, and the list's length
when absent; in particular for rules [S1, S2] the ranks of S1, S2 and an
unlisted S3 are 0, 1 and 2. -/
theorem claim_C3 (R : List String) (s : String) :
    (s ∈ R → ∃ pre post, R = pre ++ s :: post ∧ s ∉ pre ∧
        strategy_ranking_of R s = pre.length)
    ∧ (s ∉ R → strategy_ranking_of R s = R.length)
    ∧ strategy_ranking_of ["S1", "S2"] "S1" = 0
    ∧ strategy_ranking_of ["S1", "S2"] "S2" = 1
    ∧ strategy_ranking_of ["S1", "S2"] "S3" = 2 := by
  refine ⟨?_, ?_, by decide, by decide, by decide⟩
  · intro hmem
    induction R with
    | nil => exact absurd hmem (List.not_mem_nil s)
    | cons a R ih =>
      by_cases h : a = s
      · subst h
        exact ⟨[], R, rfl, by simp, by simp [strategy_ranking_of_cons]⟩
      · have hmR : s ∈ R := by
          rcases List.mem_cons.mp hmem with heq | hm
          · exact absurd heq.symm h
          · exact hm
        obtain ⟨pre, post, hsplit, hnot, hrank⟩ := ih hmR
        refine ⟨a :: pre, post, by simp [hsplit], ?_, ?_⟩
        · intro hc
          rcases List.mem_cons.mp hc with he | hp
          · exact h he.symm
          · exact hnot hp
        · simp [strategy_ranking_of_cons, h, hrank]
  · intro hnm
    induction R with
    | nil => rfl
    | cons a R ih =>
      have h1 : a ≠ s := fun hc => hnm (hc ▸ List.mem_cons_self a R)
      have h2 : s ∉ R := fun hc => hnm (List.mem_cons_of_mem a hc)
      simp [strategy_ranking_of_cons, h1, ih h2]

@[simp] theorem except_bind_ok {α β ε : Type} (a : α) (f : α → Except ε β) :
    (Except.ok a >>= f) = f a := rfl

@[simp] theorem except_bind_error {α β ε : Type} (e : ε) (f : α → Except ε β) :
    ((Except.error e : Except ε α) >>= f) = Except.error e := rfl

theorem roadmap_inner_ok (store : Store) (us : UserState) (r : RoadmapData)
    (h : roadmap_inner store us = .ok r) :
    ∃ vg, process_goals store us store.goals = .ok vg ∧
      r = ⟨us.user_id, "2025-09-09T16:27:00Z", vg.length, vg.map goal_to_dict⟩ := by
  unfold roadmap_inner get_goals_by_phase at h
  by_cases he : store.goals.isEmpty
  · rw [if_pos he] at h
    simp at h
  · rw [if_neg he, except_bind_ok, if_neg he] at h
    cases hp : process_goals store us store.goals with
    | error e => rw [hp, except_bind_error] at h; exact absurd h (by simp)
    | ok vg =>
      rw [hp, except_bind_ok] at h
      exact ⟨vg, rfl, by simpa using h.symm⟩

theorem roadmap_ok (store : Store) (us : UserState) (r : RoadmapData)
    (h : roadmap store us = .ok r) : roadmap_inner store us = .ok r := by
  unfold roadmap at h
  cases hi : roadmap_inner store us with
  | error e => rw [hi] at h; exact absurd h (by simp)
  | ok r0 => rw [hi] at h; simpa using h

/-- C8: with zero goals in the catalog, the roadmap computation raises a
failure whose message indicates that no goals were found, instead of
returning an empty roadmap. -/
theorem claim_C8 (store : Store) (us : UserState) (h : store.goals = []) :
    roadmap store us = .error
      ("Roadmap generation failed: " ++
        "Failed to get goals by phase: No goals found in database - check goal seeding")
    ∧ ∀ r : RoadmapData, roadmap store us ≠ .ok r := by
  have hinner : roadmap_inner store us =
      .error "Failed to get goals by phase: No goals found in database - check goal seeding" := by
    unfold roadmap_inner get_goals_by_phase
    rw [if_pos (by simp [h])]
    rfl
  refine ⟨?_, ?_⟩
  · unfold roadmap
    rw [hinner]
  · intro r hr
    unfold roadmap at hr
    rw [hinner] at hr
    exact absurd hr (by simp)

/-- C10: every successfully generated roadmap carries the constant
generated_at value "2025-09-09T16:27:00Z", independent of the store, the
user and hence the actual time of generation. -/
theorem claim_C10 (store : Store) (us : UserState) (r : RoadmapData)
    (h : roadmap store us = .ok r) : r.generated_at = "2025-09-09T16:27:00Z" := by
  obtain ⟨vg, _, hr⟩ := roadmap_inner_ok store us r (roadmap_ok store us r h)
  rw [hr]

theorem mem_insert_by_rank (sd x : SolutionData) (l : List SolutionData) :
    x ∈ insert_by_rank sd l ↔ x = sd ∨ x ∈ l := by
  induction l with
  | nil => simp [insert_by_rank]
  | cons a l ih =>
    by_cases h : sd.strategy_ranking ≤ a.strategy_ranking
    · rw [insert_by_rank, if_pos h]
      simp
    · rw [insert_by_rank, if_neg h]
      simp [ih]
      tauto

theorem length_insert_by_rank (sd : SolutionData) (l : List SolutionData) :
    (insert_by_rank sd l).length = l.length + 1 := by
  induction l with
  | nil => rfl
  | cons a l ih =>
    by_cases h : sd.strategy_ranking ≤ a.strategy_ranking
    · rw [insert_by_rank, if_pos h]
      simp
    · rw [insert_by_rank, if_neg h]
      simp [ih]

theorem mem_sort_by_rank (x : SolutionData) (l : List SolutionData) :
    x ∈ sort_by_rank l ↔ x ∈ l := by
  induction l with
  | nil => simp [sort_by_rank]
  | cons a l ih =>
    rw [sort_by_rank, mem_insert_by_rank]
    simp [ih]

theorem length_sort_by_rank (l : List SolutionData) :
    (sort_by_rank l).length = l.length := by
  induction l with
  | nil => rfl
  | cons a l ih =>
    rw [sort_by_rank, length_insert_by_rank, ih]
    rfl

theorem pairwise_insert_by_rank (sd : SolutionData) (l : List SolutionData)
    (h : l.Pairwise (fun a b => a.strategy_ranking ≤ b.strategy_ranking)) :
    (insert_by_rank sd l).Pairwise
      (fun a b => a.strategy_ranking ≤ b.strategy_ranking) := by
  induction l with
  | nil => simp [insert_by_rank]
  | cons a l ih =>
    rcases List.pairwise_cons.mp h with ⟨ha, hl⟩
    by_cases hle : sd.strategy_ranking ≤ a.strategy_ranking
    · rw [insert_by_rank, if_pos hle]
      refine List.pairwise_cons.mpr ⟨?_, h⟩
      intro b hb
      rcases List.mem_cons.mp hb with rfl | hbl
      · exact hle
      · exact le_trans hle (ha b hbl)
    · rw [insert_by_rank, if_neg hle]
      refine List.pairwise_cons.mpr ⟨?_, ih hl⟩
      intro b hb
      rcases (mem_insert_by_rank sd b l).mp hb with rfl | hbl
      · omega
      · exact ha b hbl

theorem pairwise_sort_by_rank (l : List SolutionData) :
    (sort_by_rank l).Pairwise
      (fun a b => a.strategy_ranking ≤ b.strategy_ranking) := by
  induction l with
  | nil => simp [sort_by_rank]
  | cons a l ih => exact pairwise_insert_by_rank a (sort_by_rank l) ih

theorem process_solution_some_shape (store : Store) (us : UserState)
    (goal_id : String) (sol : Solution) (sd : SolutionData)
    (h : process_solution store us goal_id sol = .ok (some sd)) :
    store.claimsFor sol.id ≠ [] ∧
    ∃ vc, viable_claims_for store us (store.claimsFor sol.id) = .ok vc ∧ vc ≠ [] ∧
      sd.viable_assessed_claims = vc := by
  unfold process_solution at h
  by_cases hc : (store.claimsFor sol.id).isEmpty
  · rw [if_pos hc] at h
    exact absurd h (by simp)
  · rw [if_neg hc] at h
    cases hv : viable_claims_for store us (store.claimsFor sol.id) with
    | error e =>
      rw [hv, except_bind_error] at h
      exact absurd h (by simp)
    | ok vc =>
      rw [hv, except_bind_ok] at h
      by_cases hvc : vc.isEmpty
      · rw [if_pos hvc] at h
        exact absurd h (by simp)
      · rw [if_neg hvc] at h
        have hsd : sd = ⟨sol.id, sol.name, sol.description, vc,
            strategy_ranking_of
              (match store.strategyFor goal_id with
               | none => []
               | some s => s.ranking_rules) sol.id,
            match store.strategyFor goal_id with
            | none => default_ranking_notice
            | some s => s.user_rationale⟩ := by
          have := h
          simp at this
          exact this.symm
        refine ⟨by simpa using hc, vc, rfl, by simpa using hvc, ?_⟩
        rw [hsd]

theorem process_solutions_mem (store : Store) (us : UserState) (goal_id : String) :
    ∀ (sols : List Solution) (l : List SolutionData),
      process_solutions store us goal_id sols = .ok l →
      ∀ sd ∈ l, ∃ sol ∈ sols,
        process_solution store us goal_id sol = .ok (some sd) := by
  intro sols
  induction sols with
  | nil =>
    intro l h sd hsd
    unfold process_solutions at h
    obtain rfl : ([] : List SolutionData) = l := by simpa using h
    exact absurd hsd (List.not_mem_nil sd)
  | cons a sols ih =>
    intro l h sd hsd
    unfold process_solutions at h
    cases hr : process_solution store us goal_id a with
    | error e =>
      rw [hr, except_bind_error] at h
      exact absurd h (by simp)
    | ok r0 =>
      rw [hr, except_bind_ok] at h
      cases hrs : process_solutions store us goal_id sols with
      | error e =>
        rw [hrs, except_bind_error] at h
        exact absurd h (by simp)
      | ok rs =>
        rw [hrs, except_bind_ok] at h
        cases r0 with
        | none =>
          obtain rfl : rs = l := by simpa using h
          obtain ⟨sol, hsol, hps⟩ := ih rs hrs sd hsd
          exact ⟨sol, List.mem_cons_of_mem a hsol, hps⟩
        | some sd0 =>
          obtain rfl : sd0 :: rs = l := by simpa using h
          rcases List.mem_cons.mp hsd with rfl | hmem
          · exact ⟨a, List.mem_cons_self a sols, hr⟩
          · obtain ⟨sol, hsol, hps⟩ := ih rs hrs sd hmem
            exact ⟨sol, List.mem_cons_of_mem a hsol, hps⟩

theorem process_solutions_collect (store : Store) (us : UserState) (goal_id : String) :
    ∀ (sols : List Solution) (l : List SolutionData) (sol : Solution)
      (sd : SolutionData),
      process_solutions store us goal_id sols = .ok l →
      sol ∈ sols →
      process_solution store us goal_id sol = .ok (some sd) →
      sd ∈ l := by
  intro sols
  induction sols with
  | nil => intro l sol sd _ hmem _; exact absurd hmem (List.not_mem_nil sol)
  | cons a sols ih =>
    intro l sol sd h hmem hps
    unfold process_solutions at h
    cases hr : process_solution store us goal_id a with
    | error e =>
      rw [hr, except_bind_error] at h
      exact absurd h (by simp)
    | ok r0 =>
      rw [hr, except_bind_ok] at h
      cases hrs : process_solutions store us goal_id sols with
      | error e =>
        rw [hrs, except_bind_error] at h
        exact absurd h (by simp)
      | ok rs =>
        rw [hrs, except_bind_ok] at h
        rcases List.mem_cons.mp hmem with rfl | hmem2
        · rw [hps] at hr
          obtain rfl : r0 = some sd := by simpa using hr.symm
          obtain rfl : sd :: rs = l := by simpa using h
          exact List.mem_cons_self sd rs
        · have hsd := ih rs sol sd hrs hmem2 hps
          cases r0 with
          | none =>
            obtain rfl : rs = l := by simpa using h
            exact hsd
          | some sd0 =>
            obtain rfl : sd0 :: rs = l := by simpa using h
            exact List.mem_cons_of_mem sd0 hsd

theorem process_solutions_total (store : Store) (us : UserState) (goal_id : String) :
    ∀ sols : List Solution,
      (∀ sol ∈ sols, ∃ r, process_solution store us goal_id sol = .ok r) →
      ∃ l, process_solutions store us goal_id sols = .ok l := by
  intro sols
  induction sols with
  | nil => intro _; exact ⟨[], rfl⟩
  | cons a sols ih =>
    intro h
    obtain ⟨r0, hr⟩ := h a (List.mem_cons_self a sols)
    obtain ⟨rs, hrs⟩ := ih fun sol hsol => h sol (List.mem_cons_of_mem a hsol)
    cases r0 with
    | none =>
      refine ⟨rs, ?_⟩
      unfold process_solutions
      rw [hr, except_bind_ok, hrs, except_bind_ok]
    | some sd0 =>
      refine ⟨sd0 :: rs, ?_⟩
      unfold process_solutions
      rw [hr, except_bind_ok, hrs, except_bind_ok]

theorem process_goal_some_shape (store : Store) (us : UserState) (goal : Goal)
    (gd : GoalData) (h : process_goal store us goal = .ok (some gd)) :
    store.solutionsFor goal.id ≠ [] ∧
    ∃ vs, process_solutions store us goal.id (store.solutionsFor goal.id) = .ok vs ∧
      vs ≠ [] ∧ gd.viable_solutions = sort_by_rank vs := by
  unfold process_goal at h
  by_cases hs : (store.solutionsFor goal.id).isEmpty
  · rw [if_pos hs] at h
    exact absurd h (by simp)
  · rw [if_neg hs] at h
    cases hv : process_solutions store us goal.id (store.solutionsFor goal.id) with
    | error e =>
      rw [hv, except_bind_error] at h
      exact absurd h (by simp)
    | ok vs =>
      rw [hv, except_bind_ok] at h
      by_cases hvs : vs.isEmpty
      · rw [if_pos hvs] at h
        exact absurd h (by simp)
      · rw [if_neg hvs] at h
        have hgd : gd = ⟨goal.id, goal.name, goal.phase, goal.description,
            sort_by_rank vs⟩ := by
          have := h
          simp at this
          exact this.symm
        exact ⟨by simpa using hs, vs, rfl, by simpa using hvs, by rw [hgd]⟩

theorem process_goals_mem (store : Store) (us : UserState) :
    ∀ (gs : List Goal) (l : List GoalData),
      process_goals store us gs = .ok l →
      ∀ gd ∈ l, ∃ g ∈ gs, process_goal store us g = .ok (some gd) := by
  intro gs
  induction gs with
  | nil =>
    intro l h gd hgd
    unfold process_goals at h
    obtain rfl : ([] : List GoalData) = l := by simpa using h
    exact absurd hgd (List.not_mem_nil gd)
  | cons a gs ih =>
    intro l h gd hgd
    unfold process_goals at h
    cases hr : process_goal store us a with
    | error e =>
      rw [hr, except_bind_error] at h
      exact absurd h (by simp)
    | ok r0 =>
      rw [hr, except_bind_ok] at h
      cases hrs : process_goals store us gs with
      | error e =>
        rw [hrs, except_bind_error] at h
        exact absurd h (by simp)
      | ok rs =>
        rw [hrs, except_bind_ok] at h
        cases r0 with
        | none =>
          obtain rfl : rs = l := by simpa using h
          obtain ⟨g, hg, hpg⟩ := ih rs hrs gd hgd
          exact ⟨g, List.mem_cons_of_mem a hg, hpg⟩
        | some gd0 =>
          obtain rfl : gd0 :: rs = l := by simpa using h
          rcases List.mem_cons.mp hgd with rfl | hmem
          · exact ⟨a, List.mem_cons_self a gs, hr⟩
          · obtain ⟨g, hg, hpg⟩ := ih rs hrs gd hmem
            exact ⟨g, List.mem_cons_of_mem a hg, hpg⟩

theorem viable_claims_for_gates (store : Store) (us : UserState) :
    ∀ (cids : List String) (vc : List Graphlet),
      viable_claims_for store us cids = .ok vc →
      ∀ gr ∈ vc, ScopeValidator.is_viable us.scopes gr.scopes = true ∧
        RequirementChecker.is_viable us.facts gr.requirements = .ok true := by
  intro cids
  induction cids with
  | nil =>
    intro vc h gr hgr
    unfold viable_claims_for at h
    obtain rfl : ([] : List Graphlet) = vc := by simpa using h
    exact absurd hgr (List.not_mem_nil gr)
  | cons cid rest ih =>
    intro vc h gr hgr
    unfold viable_claims_for at h
    cases hg : store.graphletFor cid with
    | none =>
      rw [hg] at h
      exact ih vc h gr hgr
    | some g0 =>
      simp only [hg] at h
      by_cases hs : ScopeValidator.is_viable us.scopes g0.scopes = true
      · rw [if_pos hs] at h
        cases hr : RequirementChecker.is_viable us.facts g0.requirements with
        | error e =>
          rw [hr] at h
          exact absurd h (by simp)
        | ok b =>
          rw [hr] at h
          cases b with
          | true =>
            cases hrest : viable_claims_for store us rest with
            | error e =>
              rw [hrest] at h
              exact absurd h (by simp)
            | ok vs =>
              rw [hrest] at h
              simp at h
              obtain rfl : g0 :: vs = vc := h
              rcases List.mem_cons.mp hgr with rfl | hm
              · exact ⟨hs, hr⟩
              · exact ih vs hrest gr hm
          | false => exact ih vc h gr hgr
      · rw [if_neg hs] at h
        exact ih vc h gr hgr

/-- C6: in every successfully generated roadmap, each emitted goal carries at
least one solution; each emitted solution counts at least one assessed claim,
and those counted claims all passed both the scope gate and the requirement
gate; and within each goal the solutions are listed in ascending order of
strategy_ranking. -/
theorem claim_C6 (store : Store) (us : UserState) (r : RoadmapData)
    (h : roadmap store us = .ok r) :
    ∀ g ∈ r.goals, g.solutions ≠ [] ∧
      g.solutions.Pairwise (fun a b => a.strategy_ranking ≤ b.strategy_ranking) ∧
      ∀ s ∈ g.solutions, 1 ≤ s.assessed_claims_count ∧
        ∃ vc : List Graphlet, s.assessed_claims_count = vc.length ∧ vc ≠ [] ∧
          ∀ gr ∈ vc, ScopeValidator.is_viable us.scopes gr.scopes = true ∧
            RequirementChecker.is_viable us.facts gr.requirements = .ok true := by
  obtain ⟨vg, hvg, hr⟩ := roadmap_inner_ok store us r (roadmap_ok store us r h)
  subst hr
  intro g hg
  simp only [List.mem_map] at hg
  obtain ⟨gd, hgd, rfl⟩ := hg
  obtain ⟨goal, hgoal, hpg⟩ := process_goals_mem store us store.goals vg hvg gd hgd
  obtain ⟨hsne, vs, hvs, hvsne, hsort⟩ := process_goal_some_shape store us goal gd hpg
  have hvsol_ne : gd.viable_solutions ≠ [] := by
    rw [hsort]
    intro hc
    have hlen := length_sort_by_rank vs
    rw [hc] at hlen
    exact hvsne (by simpa using hlen.symm)
  refine ⟨?_, ?_, ?_⟩
  · simp only [goal_to_dict]
    simpa using hvsol_ne
  · simp only [goal_to_dict]
    rw [hsort]
    refine List.Pairwise.map solution_to_dict ?_ (pairwise_sort_by_rank vs)
    intro a b hab
    exact hab
  · intro s hs
    simp only [goal_to_dict, List.mem_map] at hs
    obtain ⟨sd, hsd, rfl⟩ := hs
    have hsdvs : sd ∈ vs := by
      rw [hsort] at hsd
      exact (mem_sort_by_rank sd vs).mp hsd
    obtain ⟨sol, hsol, hps⟩ :=
      process_solutions_mem store us goal.id (store.solutionsFor goal.id) vs hvs sd hsdvs
    obtain ⟨hcne, vc, hvc, hvcne, hclaims⟩ :=
      process_solution_some_shape store us goal.id sol sd hps
    have hcount : (solution_to_dict sd).assessed_claims_count = vc.length := by
      simp only [solution_to_dict]
      rw [hclaims]
    refine ⟨?_, vc, hcount, hvcne, ?_⟩
    · rw [hcount]
      cases vc with
      | nil => exact absurd rfl hvcne
      | cons a l => simp
    · exact viable_claims_for_gates store us (store.claimsFor sol.id) vc hvc

theorem process_solution_no_strategy (store : Store) (us : UserState)
    (goal_id : String) (sol : Solution) (vc : List Graphlet)
    (hstrat : store.strategyFor goal_id = none)
    (hcne : store.claimsFor sol.id ≠ [])
    (hvc : viable_claims_for store us (store.claimsFor sol.id) = .ok vc)
    (hvcne : vc ≠ []) :
    process_solution store us goal_id sol =
      .ok (some ⟨sol.id, sol.name, sol.description, vc,
                 strategy_ranking_of [] sol.id, default_ranking_notice⟩) := by
  unfold process_solution
  rw [if_neg (by simpa using hcne), hvc, except_bind_ok,
    if_neg (by simpa using hvcne)]
  simp only [hstrat]

/-- C4: when the store has no strategy for a goal, the roadmap computation
does not abort that goal: a solution with at least one viable claim is still
emitted, built with the empty ranking list (so its rank is
`strategy_ranking_of [] = 0`) and the default-ranking notice as its
user_rationale, and it appears among the goal's emitted viable solutions. -/
theorem claim_C4 :
    (∀ (store : Store) (us : UserState) (goal_id : String) (sol : Solution)
       (vc : List Graphlet),
       store.strategyFor goal_id = none →
       store.claimsFor sol.id ≠ [] →
       viable_claims_for store us (store.claimsFor sol.id) = .ok vc →
       vc ≠ [] →
       process_solution store us goal_id sol =
         .ok (some ⟨sol.id, sol.name, sol.description, vc,
                    strategy_ranking_of [] sol.id, default_ranking_notice⟩) ∧
       strategy_ranking_of [] sol.id = 0)
    ∧ (∀ (store : Store) (us : UserState) (goal : Goal) (sol : Solution)
        (sd : SolutionData),
        store.strategyFor goal.id = none →
        sol ∈ store.solutionsFor goal.id →
        process_solution store us goal.id sol = .ok (some sd) →
        (∀ sol2 ∈ store.solutionsFor goal.id,
          ∃ r, process_solution store us goal.id sol2 = .ok r) →
        ∃ gd, process_goal store us goal = .ok (some gd) ∧
          sd ∈ gd.viable_solutions) := by
  constructor
  · intro store us goal_id sol vc hstrat hcne hvc hvcne
    exact ⟨process_solution_no_strategy store us goal_id sol vc hstrat hcne hvc hvcne,
      rfl⟩
  · intro store us goal sol sd hstrat hsol hps htotal
    obtain ⟨l, hl⟩ := process_solutions_total store us goal.id
      (store.solutionsFor goal.id) htotal
    have hsd : sd ∈ l := process_solutions_collect store us goal.id
      (store.solutionsFor goal.id) l sol sd hl hsol hps
    have hlne : l ≠ [] := List.ne_nil_of_mem hsd
    have hsolsne : store.solutionsFor goal.id ≠ [] := List.ne_nil_of_mem hsol
    refine ⟨⟨goal.id, goal.name, goal.phase, goal.description, sort_by_rank l⟩, ?_, ?_⟩
    · unfold process_goal
      rw [if_neg (by simpa using hsolsne), hl, except_bind_ok,
        if_neg (by simpa using hlne)]
    · exact (mem_sort_by_rank sd l).mpr hsd

theorem viable_claims_for_error (store : Store) (us : UserState) :
    ∀ cids : List String,
      (∃ cid ∈ cids, ∃ gr, store.graphletFor cid = some gr ∧
        ScopeValidator.is_viable us.scopes gr.scopes = true ∧
        ∃ msg, RequirementChecker.is_viable us.facts gr.requirements = .error msg) →
      ∃ e, viable_claims_for store us cids = .error e := by
  intro cids
  induction cids with
  | nil => rintro ⟨cid, hmem, _⟩; exact absurd hmem (List.not_mem_nil cid)
  | cons c rest ih =>
    rintro ⟨cid, hmem, gr, hgr, hsc, msg, hmsg⟩
    cases hg : store.graphletFor c with
    | none =>
      have hrest : cid ∈ rest := by
        rcases List.mem_cons.mp hmem with rfl | hm
        · rw [hg] at hgr; exact absurd hgr (by simp)
        · exact hm
      obtain ⟨e, he⟩ := ih ⟨cid, hrest, gr, hgr, hsc, msg, hmsg⟩
      refine ⟨e, ?_⟩
      simp only [viable_claims_for, hg]
      exact he
    | some g0 =>
      by_cases hs : ScopeValidator.is_viable us.scopes g0.scopes = true
      · cases hr : RequirementChecker.is_viable us.facts g0.requirements with
        | error e0 =>
          refine ⟨e0, ?_⟩
          simp only [viable_claims_for, hg]
          rw [if_pos hs, hr]
        | ok b =>
          have hrest : cid ∈ rest := by
            rcases List.mem_cons.mp hmem with rfl | hm
            · rw [hg] at hgr
              obtain rfl : g0 = gr := by simpa using hgr
              rw [hr] at hmsg
              exact absurd hmsg (by simp)
            · exact hm
          obtain ⟨e, he⟩ := ih ⟨cid, hrest, gr, hgr, hsc, msg, hmsg⟩
          cases b with
          | true =>
            refine ⟨e, ?_⟩
            simp only [viable_claims_for, hg]
            rw [if_pos hs, hr, he, except_bind_error]
          | false =>
            refine ⟨e, ?_⟩
            simp only [viable_claims_for, hg]
            rw [if_pos hs, hr]
            exact he
      · have hrest : cid ∈ rest := by
          rcases List.mem_cons.mp hmem with rfl | hm
          · rw [hg] at hgr
            obtain rfl : g0 = gr := by simpa using hgr
            exact absurd hsc hs
          · exact hm
        obtain ⟨e, he⟩ := ih ⟨cid, hrest, gr, hgr, hsc, msg, hmsg⟩
        refine ⟨e, ?_⟩
        simp only [viable_claims_for, hg]
        rw [if_neg hs]
        exact he

theorem process_solution_error (store : Store) (us : UserState) (goal_id : String)
    (sol : Solution)
    (hcne : store.claimsFor sol.id ≠ [])
    (h : ∃ e, viable_claims_for store us (store.claimsFor sol.id) = .error e) :
    ∃ e, process_solution store us goal_id sol = .error e := by
  obtain ⟨e, he⟩ := h
  refine ⟨e, ?_⟩
  unfold process_solution
  rw [if_neg (by simpa using hcne), he, except_bind_error]

theorem process_solutions_error (store : Store) (us : UserState) (goal_id : String) :
    ∀ sols : List Solution,
      (∃ sol ∈ sols, ∃ e, process_solution store us goal_id sol = .error e) →
      ∃ e, process_solutions store us goal_id sols = .error e := by
  intro sols
  induction sols with
  | nil => rintro ⟨sol, hmem, _⟩; exact absurd hmem (List.not_mem_nil sol)
  | cons a rest ih =>
    rintro ⟨sol, hmem, e, he⟩
    cases hr : process_solution store us goal_id a with
    | error e0 =>
      refine ⟨e0, ?_⟩
      unfold process_solutions
      rw [hr, except_bind_error]
    | ok r0 =>
      have hrest : sol ∈ rest := by
        rcases List.mem_cons.mp hmem with rfl | hm
        · rw [hr] at he; exact absurd he (by simp)
        · exact hm
      obtain ⟨e1, he1⟩ := ih ⟨sol, hrest, e, he⟩
      refine ⟨e1, ?_⟩
      unfold process_solutions
      rw [hr, except_bind_ok, he1, except_bind_error]

theorem process_goal_error (store : Store) (us : UserState) (goal : Goal)
    (hsne : store.solutionsFor goal.id ≠ [])
    (h : ∃ e, process_solutions store us goal.id (store.solutionsFor goal.id) =
      .error e) :
    ∃ e, process_goal store us goal = .error e := by
  obtain ⟨e, he⟩ := h
  refine ⟨e, ?_⟩
  unfold process_goal
  rw [if_neg (by simpa using hsne), he, except_bind_error]

theorem process_goals_error (store : Store) (us : UserState) :
    ∀ gs : List Goal,
      (∃ g ∈ gs, ∃ e, process_goal store us g = .error e) →
      ∃ e, process_goals store us gs = .error e := by
  intro gs
  induction gs with
  | nil => rintro ⟨g, hmem, _⟩; exact absurd hmem (List.not_mem_nil g)
  | cons a rest ih =>
    rintro ⟨g, hmem, e, he⟩
    cases hr : process_goal store us a with
    | error e0 =>
      refine ⟨e0, ?_⟩
      unfold process_goals
      rw [hr, except_bind_error]
    | ok r0 =>
      have hrest : g ∈ rest := by
        rcases List.mem_cons.mp hmem with rfl | hm
        · rw [hr] at he; exact absurd he (by simp)
        · exact hm
      obtain ⟨e1, he1⟩ := ih ⟨g, hrest, e, he⟩
      refine ⟨e1, ?_⟩
      unfold process_goals
      rw [hr, except_bind_ok, he1, except_bind_error]

/-- C7: if the requirement check raises while evaluating any reachable claim
(graphlet present, scope gate passed), the whole roadmap computation aborts
with a failure message prefixed "Roadmap generation failed: " and never
returns a (partial) roadmap payload. -/
theorem claim_C7 (store : Store) (us : UserState) (g : Goal) (sol : Solution)
    (cid : String) (gr : Graphlet)
    (hg : g ∈ store.goals)
    (hs : sol ∈ store.solutionsFor g.id)
    (hc : cid ∈ store.claimsFor sol.id)
    (hgr : store.graphletFor cid = some gr)
    (hscope : ScopeValidator.is_viable us.scopes gr.scopes = true)
    (hreq : ∃ msg, RequirementChecker.is_viable us.facts gr.requirements = .error msg) :
    (∃ e, roadmap store us = .error ("Roadmap generation failed: " ++ e))
    ∧ ∀ r : RoadmapData, roadmap store us ≠ .ok r := by
  have h1 := viable_claims_for_error store us (store.claimsFor sol.id)
    ⟨cid, hc, gr, hgr, hscope, hreq⟩
  have h2 := process_solution_error store us g.id sol (List.ne_nil_of_mem hc) h1
  have h3 := process_solutions_error store us g.id (store.solutionsFor g.id)
    ⟨sol, hs, h2⟩
  have h4 := process_goal_error store us g (List.ne_nil_of_mem hs) h3
  have h5 := process_goals_error store us store.goals ⟨g, hg, h4⟩
  obtain ⟨e, he⟩ := h5
  have hgne : store.goals ≠ [] := List.ne_nil_of_mem hg
  have hinner : roadmap_inner store us = .error e := by
    unfold roadmap_inner get_goals_by_phase
    rw [if_neg (by simpa using hgne), except_bind_ok, if_neg (by simpa using hgne),
      he, except_bind_error]
  constructor
  · refine ⟨e, ?_⟩
    unfold roadmap
    rw [hinner]
  · intro r hr
    unfold roadmap at hr
    rw [hinner] at hr
    exact absurd hr (by simp)

theorem jpf_lookup : ∀ {fs gs : List (String × Json)}, JPermFields fs gs →
    ∀ k : String,
      (fs.lookup k = none ∧ gs.lookup k = none) ∨
      (∃ v w, fs.lookup k = some v ∧ gs.lookup k = some w ∧ JPermVal v w) := by
  intro fs
  induction fs with
  | nil =>
    intro gs h k
    cases h
    simp [List.lookup]
  | cons p fs ih =>
    intro gs h k
    obtain ⟨k0, v0⟩ := p
    cases h with
    | cons hvw hfs =>
      rename_i w gs'
      by_cases hk : (k == k0) = true
      · exact Or.inr ⟨v0, w, by simp [List.lookup, hk], by simp [List.lookup, hk],
          Or.inl hvw⟩
      · rcases ih hfs k with ⟨h1, h2⟩ | ⟨v, w2, h1, h2, hvw2⟩
        · exact Or.inl ⟨by simp [List.lookup, hk, h1], by simp [List.lookup, hk, h2]⟩
        · exact Or.inr ⟨v, w2, by simp [List.lookup, hk, h1],
            by simp [List.lookup, hk, h2], hvw2⟩
    | consChildren hlist hperm hfs =>
      rename_i v1 w1 z1 gs1
      by_cases hk : (k == "children") = true
      · exact Or.inr ⟨Json.arr v1, Json.arr w1, by simp [List.lookup, hk],
          by simp [List.lookup, hk], Or.inr ⟨v1, w1, z1, rfl, rfl, hlist, hperm⟩⟩
      · rcases ih hfs k with ⟨h1, h2⟩ | ⟨v, w2, h1, h2, hvw2⟩
        · exact Or.inl ⟨by simp [List.lookup, hk, h1], by simp [List.lookup, hk, h2]⟩
        · exact Or.inr ⟨v, w2, by simp [List.lookup, hk, h1],
            by simp [List.lookup, hk, h2], hvw2⟩

theorem is_has_op_eq {fs gs : List (String × Json)} (h : JPermFields fs gs) :
    is_has_op fs = is_has_op gs := by
  rcases jpf_lookup h "op" with ⟨h1, h2⟩ | ⟨v, w, h1, h2, hvw⟩
  · simp [is_has_op, h1, h2]
  · rcases hvw with hp | ⟨xs, ys, z, rfl, rfl, _, _⟩
    · cases hp <;> simp [is_has_op, h1, h2]
    · simp [is_has_op, h1, h2]

theorem jpermval_str {s : String} {w : Json} (h : JPermVal (Json.str s) w) :
    w = Json.str s := by
  rcases h with hp | ⟨xs, ys, z, heq, _, _, _⟩
  · cases hp; rfl
  · exact absurd heq (by simp)

theorem wf_obj_parts {fs : List (String × Json)}
    (h : wf_leaf_ids (Json.obj fs) = true) :
    (if is_has_op fs then
        match fs.lookup "id" with
        | some (Json.str _) => true
        | some _ => false
        | none => true
      else true) = true ∧ wf_leaf_ids_fields fs = true := by
  rw [wf_leaf_ids] at h
  simpa [Bool.and_eq_true] using h

theorem wf_id_str {fs : List (String × Json)}
    (hwf : wf_leaf_ids (Json.obj fs) = true)
    (hop : is_has_op fs = true) {v : Json} (hl : fs.lookup "id" = some v) :
    ∃ s, v = Json.str s := by
  obtain ⟨h1, _⟩ := wf_obj_parts hwf
  simp only [hop, hl, if_true] at h1
  cases v <;> simp_all

theorem extract_ids_list_eq_flatMap (l : List Json) :
    extract_ids_list l = l.flatMap extract_ids_recursive := by
  induction l with
  | nil => rfl
  | cons x xs ih => simp only [extract_ids_list, List.flatMap_cons, ih]

theorem perm_extract_ids_list {z w : List Json} (h : List.Perm z w) :
    List.Perm (extract_ids_list z) (extract_ids_list w) := by
  rw [extract_ids_list_eq_flatMap, extract_ids_list_eq_flatMap]
  exact h.flatMap_right extract_ids_recursive

theorem extract_children_cons (k : String) (v : Json) (rest : List (String × Json)) :
    extract_children ((k, v) :: rest) =
      if k == "children" then
        match v with
        | Json.arr cs => extract_ids_list cs
        | _ => []
      else extract_children rest := by
  rw [extract_children.eq_def]

theorem extract_ids_recursive_obj (fs : List (String × Json)) :
    extract_ids_recursive (Json.obj fs) =
      (if is_has_op fs then
         match fs.lookup "id" with
         | some idv => [idv]
         | none => []
       else []) ++ extract_children fs := by
  rw [extract_ids_recursive.eq_def]

theorem extract_ids_recursive_arr (xs : List Json) :
    extract_ids_recursive (Json.arr xs) = extract_ids_list xs := by
  rw [extract_ids_recursive.eq_def]

theorem extract_ids_list_cons (x : Json) (xs : List Json) :
    extract_ids_list (x :: xs) = extract_ids_recursive x ++ extract_ids_list xs := by
  rw [extract_ids_list.eq_def]

theorem extract_perm_main : ∀ n : Nat,
    (∀ t1 t2 : Json, sizeOf t1 ≤ n → wf_leaf_ids t1 = true → JPerm t1 t2 →
      List.Perm (extract_ids_recursive t1) (extract_ids_recursive t2)) ∧
    (∀ xs ys : List Json, sizeOf xs ≤ n → wf_leaf_ids_list xs = true →
      JPermList xs ys → List.Perm (extract_ids_list xs) (extract_ids_list ys)) ∧
    (∀ fs gs : List (String × Json), sizeOf fs ≤ n →
      wf_leaf_ids_fields fs = true → JPermFields fs gs →
      List.Perm (extract_children fs) (extract_children gs)) := by
  intro n
  induction n using Nat.strong_induction_on with
  | _ n ih =>
    refine ⟨?_, ?_, ?_⟩
    · intro t1 t2 hsize hwf hperm
      cases hperm with
      | null => exact List.Perm.refl _
      | bool b => exact List.Perm.refl _
      | num m => exact List.Perm.refl _
      | str s => exact List.Perm.refl _
      | arr hlist =>
        rename_i xs ys
        have h1 : sizeOf xs < sizeOf (Json.arr xs) := by simp
        simp only [wf_leaf_ids] at hwf
        rw [extract_ids_recursive_arr, extract_ids_recursive_arr]
        exact (ih (sizeOf xs) (lt_of_lt_of_le h1 hsize)).2.1 xs ys le_rfl hwf hlist
      | obj hfields =>
        rename_i fs gs
        have h1 : sizeOf fs < sizeOf (Json.obj fs) := by simp
        obtain ⟨hwfhas, hwff⟩ := wf_obj_parts hwf
        have hop := is_has_op_eq hfields
        have hch : List.Perm (extract_children fs) (extract_children gs) :=
          (ih (sizeOf fs) (lt_of_lt_of_le h1 hsize)).2.2 fs gs le_rfl hwff hfields
        rw [extract_ids_recursive_obj, extract_ids_recursive_obj]
        refine List.Perm.append ?_ hch
        rw [← hop]
        by_cases hh : is_has_op fs = true
        · rw [hh]
          rcases jpf_lookup hfields "id" with ⟨hl1, hl2⟩ | ⟨v, w, hl1, hl2, hvw⟩
          · rw [hl1, hl2]
          · obtain ⟨s, rfl⟩ := wf_id_str hwf hh hl1
            rw [hl1, hl2, jpermval_str hvw]
        · have hh2 : is_has_op fs = false := by
            revert hh; cases is_has_op fs <;> simp
          rw [hh2]
          exact List.Perm.refl _
    · intro xs ys hsize hwf hlist
      cases hlist with
      | nil => exact List.Perm.refl _
      | cons hx hxs =>
        rename_i x y xs2 ys2
        simp only [wf_leaf_ids_list] at hwf
        rw [Bool.and_eq_true] at hwf
        rw [extract_ids_list_cons, extract_ids_list_cons]
        have hx1 : sizeOf x < sizeOf (x :: xs2) := by simp <;> omega
        have hx2 : sizeOf xs2 < sizeOf (x :: xs2) := by simp <;> omega
        exact List.Perm.append
          ((ih (sizeOf x) (lt_of_lt_of_le hx1 hsize)).1 x y le_rfl hwf.1 hx)
          ((ih (sizeOf xs2) (lt_of_lt_of_le hx2 hsize)).2.1 xs2 ys2 le_rfl hwf.2 hxs)
    · intro fs gs hsize hwf hfields
      cases hfields with
      | nil => exact List.Perm.refl _
      | cons hvw hfs =>
        rename_i k v w fs2 gs2
        simp only [wf_leaf_ids_fields] at hwf
        rw [Bool.and_eq_true] at hwf
        rw [extract_children_cons, extract_children_cons]
        by_cases hk : (k == "children") = true
        · rw [if_pos hk, if_pos hk]
          cases hvw with
          | null => exact List.Perm.refl _
          | bool b => exact List.Perm.refl _
          | num m => exact List.Perm.refl _
          | str s => exact List.Perm.refl _
          | obj h2 => exact List.Perm.refl _
          | arr h2 =>
            rename_i cs ds
            have hlt : sizeOf cs < sizeOf ((k, Json.arr cs) :: fs2) := by
              simp <;> omega
            have hwfcs : wf_leaf_ids_list cs = true := by
              have h3 := hwf.1
              simp only [wf_leaf_ids] at h3
              exact h3
            exact (ih (sizeOf cs) (lt_of_lt_of_le hlt hsize)).2.1 cs ds le_rfl hwfcs h2
        · rw [if_neg hk, if_neg hk]
          have hlt : sizeOf fs2 < sizeOf ((k, v) :: fs2) := by simp <;> omega
          exact (ih (sizeOf fs2) (lt_of_lt_of_le hlt hsize)).2.2 fs2 gs2 le_rfl hwf.2 hfs
      | consChildren hlist hperm hfs =>
        rename_i v1 w1 z1 fs2 gs2
        simp only [wf_leaf_ids_fields] at hwf
        rw [Bool.and_eq_true] at hwf
        rw [extract_children_cons, extract_children_cons]
        have hc : (("children" : String) == "children") = true := by decide
        rw [if_pos hc, if_pos hc]
        have hwfv : wf_leaf_ids_list v1 = true := by
          have h3 := hwf.1
          simp only [wf_leaf_ids] at h3
          exact h3
        have hlt : sizeOf v1 < sizeOf (("children", Json.arr v1) :: fs2) := by
          simp <;> omega
        have h4 := (ih (sizeOf v1) (lt_of_lt_of_le hlt hsize)).2.1 v1 z1 le_rfl hwfv hlist
        exact h4.trans (perm_extract_ids_list hperm)

theorem jperm_refl_main : ∀ n : Nat,
    (∀ t : Json, sizeOf t ≤ n → JPerm t t) ∧
    (∀ xs : List Json, sizeOf xs ≤ n → JPermList xs xs) ∧
    (∀ fs : List (String × Json), sizeOf fs ≤ n → JPermFields fs fs) := by
  intro n
  induction n using Nat.strong_induction_on with
  | _ n ih =>
    refine ⟨?_, ?_, ?_⟩
    · intro t hsize
      cases t with
      | null => exact JPerm.null
      | bool b => exact JPerm.bool b
      | num m => exact JPerm.num m
      | str s => exact JPerm.str s
      | arr xs =>
        have h1 : sizeOf xs < sizeOf (Json.arr xs) := by simp
        exact JPerm.arr ((ih (sizeOf xs) (lt_of_lt_of_le h1 hsize)).2.1 xs le_rfl)
      | obj fs =>
        have h1 : sizeOf fs < sizeOf (Json.obj fs) := by simp
        exact JPerm.obj ((ih (sizeOf fs) (lt_of_lt_of_le h1 hsize)).2.2 fs le_rfl)
    · intro xs hsize
      cases xs with
      | nil => exact JPermList.nil
      | cons x xs2 =>
        have h1 : sizeOf x < sizeOf (x :: xs2) := by simp <;> omega
        have h2 : sizeOf xs2 < sizeOf (x :: xs2) := by simp <;> omega
        exact JPermList.cons ((ih (sizeOf x) (lt_of_lt_of_le h1 hsize)).1 x le_rfl)
          ((ih (sizeOf xs2) (lt_of_lt_of_le h2 hsize)).2.1 xs2 le_rfl)
    · intro fs hsize
      cases fs with
      | nil => exact JPermFields.nil
      | cons p fs2 =>
        obtain ⟨k, v⟩ := p
        have h1 : sizeOf v < sizeOf ((k, v) :: fs2) := by simp <;> omega
        have h2 : sizeOf fs2 < sizeOf ((k, v) :: fs2) := by simp <;> omega
        exact JPermFields.cons ((ih (sizeOf v) (lt_of_lt_of_le h1 hsize)).1 v le_rfl)
          ((ih (sizeOf fs2) (lt_of_lt_of_le h2 hsize)).2.2 fs2 le_rfl)

theorem jperm_refl (t : Json) : JPerm t t :=
  (jperm_refl_main (sizeOf t)).1 t le_rfl

theorem jperm_list_refl (xs : List Json) : JPermList xs xs :=
  (jperm_refl_main (sizeOf xs)).2.1 xs le_rfl

theorem exampleLogicTree_extract :
    extractRequirementIds (some exampleLogicTree) =
      [Json.str "A", Json.str "B", Json.str "C"] := rfl

/-- C5: logic-tree extraction is order-independent and idempotent — for every
well-formed logic tree (string leaf ids, per the documented format) the set of
extracted requirement ids is invariant under permuting any node's children
list; re-extraction returns the same result; the spec's example tree
`{AND: [{has: A}, {OR: [{has: B}, {has: C}]}]}` yields exactly the set
{A, B, C}; and malformed input (unparsable, falsy, or a non-dict non-list
value) yields the empty set, extraction being total and never raising. -/
theorem claim_C5 :
    (∀ t1 t2 : Json, wf_leaf_ids t1 = true → JPerm t1 t2 →
      ∀ x, x ∈ extractRequirementIds (some t1) ↔ x ∈ extractRequirementIds (some t2))
    ∧ (∀ o : Option Json, extractRequirementIds o = extractRequirementIds o)
    ∧ (∀ x, x ∈ extractRequirementIds (some exampleLogicTree) ↔
        (x = Json.str "A" ∨ x = Json.str "B" ∨ x = Json.str "C"))
    ∧ extractRequirementIds none = []
    ∧ extractRequirementIds (some Json.null) = []
    ∧ (∀ b, extractRequirementIds (some (Json.bool b)) = [])
    ∧ (∀ m, extractRequirementIds (some (Json.num m)) = [])
    ∧ (∀ s, extractRequirementIds (some (Json.str s)) = []) := by
  refine ⟨?_, fun o => rfl, ?_, rfl, rfl, fun b => rfl, fun m => rfl, fun s => rfl⟩
  · intro t1 t2 hwf hperm x
    have hp := (extract_perm_main (sizeOf t1)).1 t1 t2 le_rfl hwf hperm
    simpa [extractRequirementIds] using hp.mem_iff
  · intro x
    rw [exampleLogicTree_extract]
    simp

theorem claim_C5_witness :
    wf_leaf_ids exampleLogicTree = true ∧
    (Json.str "A" ∈ extractRequirementIds (some exampleLogicTree) ↔
      Json.str "A" ∈ extractRequirementIds (some exampleLogicTree2)) :=
  ⟨rfl, claim_C5.1 exampleLogicTree exampleLogicTree2 rfl
    (JPerm.obj (JPermFields.cons (JPerm.str "AND")
      (JPermFields.consChildren (jperm_list_refl _) (List.Perm.swap _ _ _)
        JPermFields.nil))) (Json.str "A")⟩

theorem claim_C1_witness :
    RequirementChecker.is_viable [("a", "have"), ("b", "need")]
      [⟨some "a", some "SSN"⟩] = .ok true ∧
    RequirementChecker.is_viable [("a", "have"), ("b", "need")]
      [⟨some "a", some "SSN"⟩, ⟨some "b", some "ITIN"⟩] = .ok false ∧
    RequirementChecker.is_viable [("a", "have")]
      [⟨some "c", some "Passport"⟩] = .error (not_tracked_message "Passport" "c") := by
  refine ⟨?_, ?_, ?_⟩
  · refine (claim_C1 _ _).1 ?_
    intro r hr rid hrid hne
    fin_cases hr
    simp only [Option.some.injEq] at hrid
    subst hrid
    rfl
  · refine (claim_C1 _ _).2.1 ?_ ?_
    · intro r hr rid hrid hne
      fin_cases hr <;> simp only [Option.some.injEq] at hrid <;> subst hrid
      · exact ⟨"have", rfl⟩
      · exact ⟨"need", rfl⟩
    · exact ⟨⟨some "b", some "ITIN"⟩, by simp, "b", "need", rfl, by decide, rfl,
        Or.inl rfl⟩
  · obtain ⟨r, hr, rid, h1, h2, h3, h4⟩ :=
      (claim_C1 [("a", "have")] [⟨some "c", some "Passport"⟩]).2.2.1
        (by
          intro r hr rid hrid hne st hst
          fin_cases hr
          simp only [Option.some.injEq] at hrid
          subst hrid
          rw [show List.lookup "c" [("a", "have")] = none from rfl] at hst
          exact absurd hst (by simp))
        ⟨⟨some "c", some "Passport"⟩, by simp, "c", rfl, by decide, rfl⟩
    fin_cases hr
    simp only [Option.some.injEq] at h1
    subst h1
    exact h4

theorem claim_C3_witness :
    strategy_ranking_of ["S1", "S2"] "S3" = (["S1", "S2"] : List String).length ∧
    ∃ pre post, ["S1", "S2", "S1"] = pre ++ "S1" :: post ∧ "S1" ∉ pre ∧
      strategy_ranking_of ["S1", "S2", "S1"] "S1" = pre.length :=
  ⟨(claim_C3 ["S1", "S2"] "S3").2.1 (by decide),
   (claim_C3 ["S1", "S2", "S1"] "S1").1 (by decide)⟩

theorem claim_C4_witness :
    (process_solution demoStore demoUser "g1" demoSolution =
      .ok (some ⟨"s1", "Solution One", "sol desc", [demoGraphlet],
                 strategy_ranking_of [] "s1", default_ranking_notice⟩) ∧
     strategy_ranking_of [] "s1" = 0) ∧
    ∃ gd, process_goal demoStore demoUser demoGoal = .ok (some gd) ∧
      demoSolutionData ∈ gd.viable_solutions := by
  constructor
  · exact claim_C4.1 demoStore demoUser "g1" demoSolution [demoGraphlet] rfl
      (by decide) rfl (by decide)
  · refine claim_C4.2 demoStore demoUser demoGoal demoSolution demoSolutionData
      rfl ?_ rfl ?_
    · exact List.mem_cons_self demoSolution []
    · intro sol2 h2
      fin_cases h2
      exact ⟨some demoSolutionData, rfl⟩

theorem claim_C6_witness :
    demoGoalDict.solutions ≠ [] ∧
    demoGoalDict.solutions.Pairwise
      (fun a b => a.strategy_ranking ≤ b.strategy_ranking) ∧
    ∀ s ∈ demoGoalDict.solutions, 1 ≤ s.assessed_claims_count ∧
      ∃ vc : List Graphlet, s.assessed_claims_count = vc.length ∧ vc ≠ [] ∧
        ∀ gr ∈ vc, ScopeValidator.is_viable demoUser.scopes gr.scopes = true ∧
          RequirementChecker.is_viable demoUser.facts gr.requirements = .ok true :=
  claim_C6 demoStore demoUser demoRoadmap rfl demoGoalDict
    (List.mem_cons_self demoGoalDict [])

theorem claim_C7_witness :
    (∃ e, roadmap demoStore demoUserBad =
      .error ("Roadmap generation failed: " ++ e)) ∧
    ∀ r : RoadmapData, roadmap demoStore demoUserBad ≠ .ok r :=
  claim_C7 demoStore demoUserBad demoGoal demoSolution "c1" demoGraphlet
    (List.mem_cons_self demoGoal []) (List.mem_cons_self demoSolution [])
    (List.mem_cons_self "c1" []) rfl rfl
    ⟨not_tracked_message "Req One" "r1", rfl⟩

theorem claim_C8_witness :
    roadmap emptyStore demoUser = .error
      ("Roadmap generation failed: " ++
        "Failed to get goals by phase: No goals found in database - check goal seeding")
    ∧ ∀ r : RoadmapData, roadmap emptyStore demoUser ≠ .ok r :=
  claim_C8 emptyStore demoUser rfl

theorem claim_C10_witness :
    demoRoadmap.generated_at = "2025-09-09T16:27:00Z" :=
  claim_C10 demoStore demoUser demoRoadmap rfl
